import Mathlib

/-!
# Arbeitszeit: the timer, the entry list and the summaries of `app.js`

A shallow embedding of the logic of `src/app.js` and the properties the
specification states about it.

Modelling conventions.

* A timestamp is the time value of a JavaScript `Date`, an integer number of
  milliseconds since the epoch.  An ISO string written by `toISOString()` is
  represented by the time value it denotes (`new Date(d.toISOString())` has
  the time value of `d`).  The range limit of `Date` (8.64e15 ms either side
  of the epoch) is not modelled.
* Numbers are doubles.  A clock reading (`new Date()`), and with it the start
  time of a running timer, is far below `2^53` in magnitude, where the
  arithmetic of doubles on integers is exact: the stop branch of
  `onToggleTimer` is written with the integer operations, and `/` is the
  rational quotient.  The timestamps typed into `editEntry` and the durations
  summed by `render` are arbitrary, and there the model rounds as the code
  does: the result of `-` and `+` is the nearest double, `toDouble`.
* Text typed by the user into a timestamp prompt or a date field is a
  `DateText`: the program looks at such text only through its truthiness and
  through `new Date(text)`.
* `localStorage`, the DOM and the tick interval are not modelled; what a
  handler reads from them (the clock, the content of the inputs, the answers
  to `prompt` and `confirm`, a fresh id) is an argument of its definition,
  and every `save` is taken to succeed.
* `entries`, `state` and `settings` hold records of the shapes the program
  itself writes (§3 of the specification): every timestamp stored in an entry
  or in `state.startTime` parses, and no field is missing.
-/

namespace Arbeitszeit

/-! ## Data model -/

/-- One element of `entries`, the object literal built in `onToggleTimer`. -/
structure Entry where
  id : String
  start : Int
  «end» : Int
  durationMs : Int
  category : String
  note : String
  deriving DecidableEq, Repr

/-- The global `state`: `{ running, startTime, category, note }`; `startTime`
is `null` (`none`) or an ISO string (`some t`). -/
structure TimerState where
  running : Bool
  startTime : Option Int
  category : String
  note : String
  deriving DecidableEq, Repr

/-- The global `settings`: `{ rounding5 }`. -/
structure Settings where
  rounding5 : Bool
  deriving DecidableEq, Repr

/-- The four module-level variables `entries`, `categories`, `state`, `settings`. -/
structure App where
  entries : List Entry
  categories : List String
  state : TimerState
  settings : Settings
  deriving DecidableEq, Repr

/-- The constant `DEFAULT_CATEGORIES`. -/
def DEFAULT_CATEGORIES : List String :=
  ["Unterricht", "Vor-/Nachbereitung", "Korrekturen", "Konferenzen",
   "Pausenaufsicht", "Elternkontakte", "Fortbildung", "Sonstiges"]

/-- The fallback of `load(LS_KEYS.state, ...)`:
`{ running:false, startTime:null, category:categories[0] || 'Sonstiges', note:'' }`. -/
def defaultState (categories : List String) : TimerState :=
  { running := false
    startTime := none
    category := match categories.head? with
      | some c => if c = "" then "Sonstiges" else c
      | none => "Sonstiges"
    note := "" }

/-! ## Strings -/

/-- The code points `String.prototype.trim` removes: ECMAScript WhiteSpace and
LineTerminator. -/
def isJsWhiteSpace (c : Char) : Bool :=
  let n := c.toNat
  n = 0x09 || n = 0x0A || n = 0x0B || n = 0x0C || n = 0x0D || n = 0x20 ||
  n = 0xA0 || n = 0x1680 || (0x2000 ≤ n && n ≤ 0x200A) || n = 0x2028 ||
  n = 0x2029 || n = 0x202F || n = 0x205F || n = 0x3000 || n = 0xFEFF

/-- The method `s.trim()`. -/
def jsTrim (s : String) : String :=
  String.mk ((s.data.dropWhile isJsWhiteSpace).reverse.dropWhile isJsWhiteSpace).reverse

/-- A string that is empty or holds only white space. -/
def isBlank (s : String) : Bool :=
  s.data.all isJsWhiteSpace

/-- The expression `a || b` on two strings: `a` unless it is `''`. -/
def strOr (a b : String) : String :=
  if a = "" then b else a

/-! ## Numbers -/

/-- The number of low bits a natural number has beyond the 53 bits of the
significand of a double: the least `e` with `n / 2 ^ e < 2 ^ 53`, for a
`fuel` of at least that many halvings. -/
def excessBits : Nat → Nat → Nat
  | 0, _ => 0
  | fuel + 1, n => if n < 2 ^ 53 then 0 else excessBits fuel (n / 2) + 1

/-- The double nearest to an integer, the value a JavaScript `+` or `-` on
integer-valued doubles stores for the exact result `x`: `x` itself up to
`2^53` in magnitude, beyond that `x` rounded to 53 significant bits, a tie to
the even significand.  The overflow to `Infinity` past `2^1024` is not
modelled. -/
def toDouble (x : Int) : Int :=
  let n := x.natAbs
  if n ≤ 2 ^ 53 then x
  else
    let e := excessBits n n
    let q := n / 2 ^ e
    let r := n % 2 ^ e
    let half := 2 ^ (e - 1)
    let q := if half < r ∨ (r = half ∧ q % 2 = 1) then q + 1 else q
    x.sign * ((q * 2 ^ e : Nat) : Int)

/-! ## Helper functions of `app.js` -/

/-- The function `Math.round`: the nearest integer, a half rounding towards +∞. -/
def mathRound (x : ℚ) : Int :=
  ⌊x + 1 / 2⌋

/-- The function `roundTo5Minutes(ms)`.  For an integer `ms` below `2^53` in
magnitude the double `ms / five` lies on the same side of every half-integer
as the exact quotient, so `Math.round` gives the integer it gives here. -/
def roundTo5Minutes (ms : Int) : Int :=
  let five : Int := 5 * 60 * 1000
  mathRound ((ms : ℚ) / (five : ℚ)) * five

/-! ## Timer -/

/-- What `onToggleTimer` reads from its environment. -/
structure ToggleInput where
  /-- The value of `new Date()`. -/
  now : Int
  /-- The value of `categorySelect.value`. -/
  categorySelect : String
  /-- The value of `noteInput.value`. -/
  noteInput : String
  /-- The value of `crypto.randomUUID ? crypto.randomUUID() : String(Date.now())`. -/
  newId : String
  deriving DecidableEq, Repr

/-- The value of `new Date(state.startTime)`: `new Date(null)` is the epoch. -/
def dateOfStartTime (startTime : Option Int) : Int :=
  startTime.getD 0

/-- The entry built by the stop branch of `onToggleTimer`. -/
def stopEntry (app : App) (i : ToggleInput) : Entry :=
  let start := dateOfStartTime app.state.startTime
  let stop := i.now
  let duration := stop - start
  let duration := if app.settings.rounding5 then roundTo5Minutes duration else duration
  { id := i.newId
    start := start
    «end» := start + duration
    durationMs := duration
    category := strOr app.state.category i.categorySelect
    note := strOr app.state.note (jsTrim i.noteInput) }

/-- The function `onToggleTimer()`. -/
def onToggleTimer (app : App) (i : ToggleInput) : App :=
  if !app.state.running then
    { app with
      state :=
        { running := true
          startTime := some i.now
          category := i.categorySelect
          note := jsTrim i.noteInput } }
  else
    { app with
      entries := app.entries ++ [stopEntry app i]
      state :=
        { running := false
          startTime := none
          category := i.categorySelect
          note := jsTrim i.noteInput } }

/-- The listener of `categorySelect`: `state.category = categorySelect.value`. -/
def onCategoryChange (app : App) (value : String) : App :=
  { app with state := { app.state with category := value } }

/-- The listener of `noteInput`: `state.note = noteInput.value.trim()`. -/
def onNoteInput (app : App) (value : String) : App :=
  { app with state := { app.state with note := jsTrim value } }

/-! ## Editing and deleting entries -/

/-- Text in a timestamp position that comes from the user, as the program
tells such texts apart: by truthiness and by `new Date(text)`. -/
inductive DateText where
  /-- The empty string. -/
  | empty
  /-- A non-empty text for which `new Date` gives an Invalid Date. -/
  | invalid
  /-- A non-empty text that `new Date` reads as the time value `t`. -/
  | time (t : Int)
  deriving DecidableEq, Repr

/-- The time value of `new Date(text)`, `none` when it is `NaN`. -/
def DateText.toDate : DateText → Option Int
  | .time t => some t
  | .empty => none
  | .invalid => none

/-- The answers to the four `prompt` calls of `editEntry`; `none` is `null`
(the dialog was cancelled). -/
structure EditInput where
  newStart : Option DateText
  newEnd : Option DateText
  newCat : Option String
  newNote : Option String
  deriving DecidableEq, Repr

/-- What a handler shows with `alert`. -/
inductive Alert where
  /-- The message 'Ungültige Zeiten.' of `editEntry`. -/
  | invalidTimes
  /-- The message 'Backup erfolgreich eingespielt.' of `onRestore`. -/
  | restored
  /-- The message 'Fehler beim Einspielen: ' + err.message of `onRestore`. -/
  | restoreError
  deriving DecidableEq, Repr

/-- The entries after `editEntry`, and the alert it showed, if any. -/
structure EditResult where
  entries : List Entry
  alert : Option Alert
  deriving DecidableEq, Repr

/-- The test `!answer` on the answer to a timestamp prompt: `null` and `''`
are falsy. -/
def promptFalsy : Option DateText → Bool
  | none => true
  | some .empty => true
  | some _ => false

/-- The assignments to the object `e` found by `entries.find`: the first
element whose id is `id` is rewritten in place. -/
def updateFirst (id : String) (f : Entry → Entry) : List Entry → List Entry
  | [] => []
  | x :: xs => if x.id = id then f x :: xs else x :: updateFirst id f xs

/-- The five assignments `e.start = ...` to `e.note = ...` at the end of
`editEntry`, for the parsed dates `s` and `ed`. -/
def rewriteEntry (s ed : Int) (newCat newNote : String) (e : Entry) : Entry :=
  { e with
    start := s
    «end» := ed
    durationMs := toDouble (ed - s)
    category := strOr (jsTrim newCat) e.category
    note := jsTrim newNote }

/-- The function `editEntry(id)`. -/
def editEntry (entries : List Entry) (id : String) (a : EditInput) : EditResult :=
  match entries.find? (fun x => decide (x.id = id)) with
  | none => { entries := entries, alert := none }
  | some e =>
    if promptFalsy a.newStart then { entries := entries, alert := none }
    else if promptFalsy a.newEnd then { entries := entries, alert := none }
    else
      let newCat := strOr (a.newCat.getD "") e.category
      let newNote := a.newNote.getD e.note
      match a.newStart.bind DateText.toDate, a.newEnd.bind DateText.toDate with
      | some s, some ed =>
        if ed ≤ s then { entries := entries, alert := some Alert.invalidTimes }
        else
          { entries := updateFirst id (rewriteEntry s ed newCat newNote) entries
            alert := none }
      | _, _ => { entries := entries, alert := some Alert.invalidTimes }

/-- The function `deleteEntry(id)`; `confirmed` is the answer to `confirm`. -/
def deleteEntry (entries : List Entry) (id : String) (confirmed : Bool) : List Entry :=
  if !confirmed then entries
  else entries.filter (fun x => decide (x.id ≠ id))

/-! ## Filters and summaries of `render` -/

/-- The content of the three filter controls.  A date field is read through
`new Date(value + 'T00:00:00')`: `DateText.time t` is a value for which that
date has the time value `t`. -/
structure FilterInput where
  fromDate : DateText
  toDate : DateText
  filterCategory : String
  deriving DecidableEq, Repr

/-- The function `parseDateInput(value)`: `null` (`none`) for the empty value,
else a `Date`, which is invalid (`some none`) or has a time value. -/
def parseDateInput (value : DateText) : Option (Option Int) :=
  match value with
  | .empty => none
  | v => some v.toDate

/-- The comparison `new Date(e.start) >= fFrom`, false for an invalid `fFrom`. -/
def notBefore (fFrom : Option Int) (e : Entry) : Bool :=
  match fFrom with
  | some t => decide (t ≤ e.start)
  | none => false

/-- The comparison `new Date(e.start) < toEnd`, false for an invalid `toEnd`. -/
def before (toEnd : Option Int) (e : Entry) : Bool :=
  match toEnd with
  | some t => decide (e.start < t)
  | none => false

/-- The two date filters of `render` and `exportCSV`.  `nextDay` is the
host's `d.setDate(d.getDate() + 1)` on a valid date, which follows the local
calendar. -/
def applyDateRange (nextDay : Int → Int) (fromDate toDate : DateText)
    (list : List Entry) : List Entry :=
  let fFrom := parseDateInput fromDate
  let fTo := parseDateInput toDate
  let filtered := list
  let filtered := match fFrom with
    | some d => filtered.filter (notBefore d)
    | none => filtered
  match fTo with
  | some d =>
    let toEnd := d.map nextDay
    filtered.filter (before toEnd)
  | none => filtered

/-- The category filter of `render` and `exportCSV`. -/
def applyCategory (filterCategory : String) (list : List Entry) : List Entry :=
  if filterCategory ≠ "" then list.filter (fun e => decide (e.category = filterCategory))
  else list

/-- The list `filtered` of `render` before it is sorted, which is also the
list `list` of `exportCSV`. -/
def filterEntries (nextDay : Int → Int) (f : FilterInput) (entries : List Entry) :
    List Entry :=
  applyCategory f.filterCategory (applyDateRange nextDay f.fromDate f.toDate entries)

/-- The call `filtered.sort((a,b) => new Date(b.start) - new Date(a.start))`:
a stable sort, latest start first. -/
def sortByStartDesc (list : List Entry) : List Entry :=
  list.insertionSort (fun a b => b.start ≤ a.start)

/-- The list `filtered` that `render` summarises and shows. -/
def renderFiltered (nextDay : Int → Int) (f : FilterInput) (entries : List Entry) :
    List Entry :=
  sortByStartDesc (filterEntries nextDay f entries)

/-- A JavaScript value as far as the summary code can produce or read one.
The text of a string is not modelled; every string that occurs is the result
of `+` on an operand that is not a number and so is not empty. -/
inductive JsVal where
  | undefined
  | nan
  | num (n : Int)
  | str
  /-- A function or a plain object. -/
  | object
  deriving DecidableEq, Repr

/-- The truthiness of a value. -/
def JsVal.truthy : JsVal → Bool
  | .undefined => false
  | .nan => false
  | .num n => decide (n ≠ 0)
  | .str => true
  | .object => true

/-- The expression `a || b`. -/
def jsOr (a b : JsVal) : JsVal :=
  if a.truthy then a else b

/-- The expression `a + b`: the sum of two numbers, rounded to a double; a
string when an operand is a string, a function or a plain object; `NaN`
otherwise. -/
def jsAdd : JsVal → JsVal → JsVal
  | .num a, .num b => .num (toDouble (a + b))
  | .str, _ => .str
  | _, .str => .str
  | .object, _ => .str
  | _, .object => .str
  | _, _ => .nan

/-- The property names every object literal inherits from `Object.prototype`:
eleven methods and the accessor `__proto__`. -/
def objectPrototypeProps : List String :=
  ["constructor", "__defineGetter__", "__defineSetter__", "hasOwnProperty",
   "__lookupGetter__", "__lookupSetter__", "isPrototypeOf", "propertyIsEnumerable",
   "toString", "valueOf", "toLocaleString", "__proto__"]

/-- The object `byCat`: its own properties, in the order they were created.
`Object.values` lists the properties with integer-like names first, which
changes the order of the values and not the values. -/
abbrev ByCat := List (String × JsVal)

/-- The read `byCat[k]`: the own property, else the inherited one, else
`undefined`. -/
def getProp (o : ByCat) (k : String) : JsVal :=
  match o.lookup k with
  | some v => v
  | none => if k ∈ objectPrototypeProps then .object else .undefined

/-- The own property `k` of `o` set to `v`, created last when it is new. -/
def putOwn (k : String) (v : JsVal) : ByCat → ByCat
  | [] => [(k, v)]
  | (k', v') :: rest => if k' = k then (k', v) :: rest else (k', v') :: putOwn k v rest

/-- The assignment `byCat[k] = v` of a number or a string: the setter of
`__proto__` ignores such a value, any other name becomes an own property. -/
def setProp (o : ByCat) (k : String) (v : JsVal) : ByCat :=
  if k = "__proto__" then o else putOwn k v o

/-- The body of the `forEach` that fills `byCat`:
`byCat[e.category] = (byCat[e.category] || 0) + e.durationMs`. -/
def byCatStep (o : ByCat) (e : Entry) : ByCat :=
  setProp o e.category (jsAdd (jsOr (getProp o e.category) (.num 0)) (.num e.durationMs))

/-- The object `byCat` that `render` passes to `renderSummary`. -/
def buildByCat (filtered : List Entry) : ByCat :=
  filtered.foldl byCatStep []

/-- The value `total` of `renderSummary`:
`Object.values(byCat).reduce((a,b)=>a+b,0)`. -/
def summaryTotal (byCat : ByCat) : JsVal :=
  (byCat.map Prod.snd).foldl jsAdd (.num 0)

/-- The sum of `durationMs` over a list of entries. -/
def sumDurations (list : List Entry) : Int :=
  (list.map Entry.durationMs).sum

/-! ## Restore -/

/-- The property `entries` of a parsed backup document. -/
inductive EntriesField where
  /-- The document has no property `entries`. -/
  | missing
  /-- The property holds a value that is not an array. -/
  | notArray
  | array (es : List Entry)
  deriving DecidableEq, Repr

/-- A parsed backup document that is an object.  `categories` is `some` when
`Array.isArray(data.categories)`; `state` and `settings` are `some` when the
property holds an object of the shape the program writes, and `none` when
`typeof` of the property is not 'object'.  A document whose `state` or
`settings` is `null` or an array, for which `typeof` is 'object' too, has no
counterpart here. -/
structure BackupObject where
  entries : EntriesField
  categories : Option (List String)
  state : Option TimerState
  settings : Option Settings
  deriving DecidableEq, Repr

/-- The outcome of `JSON.parse(reader.result)`. -/
inductive RestoreDoc where
  /-- The call `JSON.parse` throws. -/
  | unparseable
  /-- The text is `null`: reading `data.entries` throws. -/
  | null
  /-- A number, a string or a boolean: `data.entries` is `undefined`. -/
  | primitive
  /-- An array: `data.entries` is a method, not an array. -/
  | array
  | object (o : BackupObject)
  deriving DecidableEq, Repr

/-- The `onload` callback of `onRestore`: the four variables afterwards and
the alert shown. -/
def onRestore (app : App) (doc : RestoreDoc) : App × Alert :=
  match doc with
  | .unparseable => (app, Alert.restoreError)
  | .null => (app, Alert.restoreError)
  | .primitive => (app, Alert.restoreError)
  | .array => (app, Alert.restoreError)
  | .object data =>
    match data.entries with
    | .missing => (app, Alert.restoreError)
    | .notArray => (app, Alert.restoreError)
    | .array es =>
      ({ entries := es
         categories := match data.categories with
           | some cs => cs
           | none => app.categories
         state := match data.state with
           | some st => st
           | none => app.state
         settings := match data.settings with
           | some cfg => cfg
           | none => app.settings },
       Alert.restored)

/-! ## Sequences of operations -/

/-- The operations that write `state`. -/
inductive TimerOp where
  | toggle (i : ToggleInput)
  | categoryChange (value : String)
  | noteInput (value : String)
  | restore (doc : RestoreDoc)
  deriving DecidableEq, Repr

/-- One operation applied to the four variables. -/
def step (app : App) : TimerOp → App
  | .toggle i => onToggleTimer app i
  | .categoryChange v => onCategoryChange app v
  | .noteInput v => onNoteInput app v
  | .restore doc => (onRestore app doc).1

/-- A sequence of operations applied from left to right. -/
def run (app : App) (ops : List TimerOp) : App :=
  ops.foldl step app

/-- A sequence of calls of `onToggleTimer`. -/
def toggles (app : App) (inputs : List ToggleInput) : App :=
  inputs.foldl onToggleTimer app

/-! ## Properties -/

/-- An entry whose duration is the difference of its end and its start. -/
def Entry.Consistent (e : Entry) : Prop :=
  e.durationMs = e.«end» - e.start

instance (e : Entry) : Decidable e.Consistent :=
  inferInstanceAs (Decidable (e.durationMs = e.«end» - e.start))

/-- The timer invariant of §3: a running timer has a start time. -/
def TimerState.Valid (st : TimerState) : Prop :=
  st.running = true → st.startTime ≠ none

instance (st : TimerState) : Decidable st.Valid :=
  inferInstanceAs (Decidable (st.running = true → st.startTime ≠ none))

/-! ### Sample data -/

/-- A list with one consistent entry and a running timer with rounding. -/
def sampleApp : App :=
  { entries := [{ id := "a", start := 1000, «end» := 61000, durationMs := 60000,
                  category := "Unterricht", note := "x" }]
    categories := DEFAULT_CATEGORIES
    state := { running := true, startTime := some 100000, category := "Korrekturen", note := "" }
    settings := { rounding5 := true } }

/-- A click seven minutes after the start of `sampleApp`. -/
def sampleToggle : ToggleInput :=
  { now := 520000, categorySelect := "Korrekturen", noteInput := " Heft ", newId := "b" }

/-- An idle timer over the list of `sampleApp`. -/
def sampleIdle : App :=
  { sampleApp with state := defaultState DEFAULT_CATEGORIES }

/-- A backup document with categories, state and settings but no entries. -/
def docWithoutEntries : RestoreDoc :=
  .object
    { entries := .missing
      categories := some ["A"]
      state := some { running := true, startTime := some 5, category := "A", note := "" }
      settings := some { rounding5 := false } }

/-- The variables of a first run: no entries, the default categories, state
and settings. -/
def defaultApp : App :=
  { entries := []
    categories := DEFAULT_CATEGORIES
    state := defaultState DEFAULT_CATEGORIES
    settings := { rounding5 := false } }

/-- An accepted backup document with a running timer that has a start time. -/
def docRunning : RestoreDoc :=
  .object
    { entries := .array []
      categories := none
      state := some { running := true, startTime := some 7, category := "A", note := "" }
      settings := none }

/-- An accepted backup document whose `state` is
`{ running:true, startTime:null, category:'Unterricht', note:'' }`. -/
def docRunningWithoutStart : RestoreDoc :=
  .object
    { entries := .array []
      categories := none
      state := some { running := true, startTime := none, category := "Unterricht", note := "" }
      settings := none }

/-- A click on Stop while the category input shows another category than the
one the running state holds. -/
def sampleToggleOther : ToggleInput :=
  { now := 520000, categorySelect := "Unterricht", noteInput := "", newId := "b" }

/-! ### Totals of `byCat` -/

/-- The number a value of `byCat` stands for, `0` for a value that is not a
number. -/
def numVal : JsVal → Int
  | .num n => n
  | _ => 0

/-- The sum of the numbers held by the own properties of `byCat`. -/
def valueSum (o : ByCat) : Int :=
  (o.map (fun p => numVal p.2)).sum

/-- The number held by the own property `k` of `byCat`, `0` without one. -/
def catTotal (o : ByCat) (k : String) : Int :=
  match o.lookup k with
  | some v => numVal v
  | none => 0

/-- An object `byCat` all of whose own properties hold numbers that are not
negative. -/
def Numeric (o : ByCat) : Prop :=
  ∀ p ∈ o, ∃ n : Int, p.2 = JsVal.num n ∧ 0 ≤ n

/-- One entry of one minute in the category 'constructor'. -/
def constructorEntry : Entry :=
  { id := "c", start := 0, «end» := 60000, durationMs := 60000, category := "constructor",
    note := "" }

/-! ### Lemmas on lists of entries -/

theorem updateFirst_mem {id : String} {f : Entry → Entry} {l : List Entry} {x : Entry}
    (hx : x ∈ updateFirst id f l) : x ∈ l ∨ ∃ y ∈ l, y.id = id ∧ x = f y := by
  induction l with
  | nil => simp [updateFirst] at hx
  | cons a t ih =>
    unfold updateFirst at hx
    split at hx
    · rcases List.mem_cons.1 hx with h | h
      · exact Or.inr ⟨a, List.mem_cons_self _ _, by assumption, h⟩
      · exact Or.inl (List.mem_cons_of_mem _ h)
    · rcases List.mem_cons.1 hx with h | h
      · exact Or.inl (h ▸ List.mem_cons_self _ _)
      · rcases ih h with h1 | ⟨y, hy, hid, hxy⟩
        · exact Or.inl (List.mem_cons_of_mem _ h1)
        · exact Or.inr ⟨y, List.mem_cons_of_mem _ hy, hid, hxy⟩

theorem updateFirst_of_find {id : String} (f : Entry → Entry) {l : List Entry} {e : Entry}
    (h : l.find? (fun x => decide (x.id = id)) = some e) :
    updateFirst id f l = updateFirst id (fun _ => f e) l := by
  induction l with
  | nil => simp at h
  | cons a t ih =>
    unfold updateFirst
    by_cases ha : a.id = id
    · simp [List.find?, ha] at h
      subst h
      simp [ha]
    · simp [List.find?, ha] at h
      simp [ha, ih h]

theorem find_updateFirst {id : String} (f : Entry → Entry) (hf : ∀ x, (f x).id = x.id)
    {l : List Entry} {e : Entry} (h : l.find? (fun x => decide (x.id = id)) = some e) :
    (updateFirst id f l).find? (fun x => decide (x.id = id)) = some (f e) := by
  induction l with
  | nil => simp at h
  | cons a t ih =>
    unfold updateFirst
    by_cases ha : a.id = id
    · simp [List.find?, ha] at h
      subst h
      simp [ha, List.find?, hf]
    · simp [List.find?, ha] at h
      simp [ha, List.find?, ih h]

/-- An accepted edit: the entry exists, both timestamps are entered and parse,
and the end is after the start.  The call rewrites the first entry with this
id and shows no alert. -/
theorem editEntry_accepted {entries : List Entry} {id : String} {a : EditInput} {e : Entry}
    {s ed : Int} (hfind : entries.find? (fun x => decide (x.id = id)) = some e)
    (hs : a.newStart = some (.time s)) (he : a.newEnd = some (.time ed)) (hlt : s < ed) :
    editEntry entries id a =
      { entries := updateFirst id
          (rewriteEntry s ed (strOr (a.newCat.getD "") e.category) (a.newNote.getD e.note))
          entries
        alert := none } := by
  simp [editEntry, hfind, hs, he, promptFalsy, DateText.toDate, not_le.2 hlt]

/-- The double nearest to an integer of magnitude at most `2^53` is the
integer. -/
theorem toDouble_of_natAbs_le {x : Int} (h : x.natAbs ≤ 2 ^ 53) : toDouble x = x := by
  unfold toDouble
  simp only [if_pos h]

theorem toDouble_of_le {x : Int} (h0 : 0 ≤ x) (h : x ≤ 2 ^ 53) : toDouble x = x := by
  apply toDouble_of_natAbs_le
  omega

/-- A call of `editEntry` leaves the list as it is or, when both timestamps
parse and the end is after the start, rewrites it through `rewriteEntry`. -/
theorem editEntry_entries (entries : List Entry) (id : String) (a : EditInput) :
    (editEntry entries id a).entries = entries ∨
      ∃ s ed c n, a.newStart = some (.time s) ∧ a.newEnd = some (.time ed) ∧ s < ed ∧
        (editEntry entries id a).entries = updateFirst id (rewriteEntry s ed c n) entries := by
  cases hfind : entries.find? (fun x => decide (x.id = id)) with
  | none => exact Or.inl (by simp [editEntry, hfind])
  | some e =>
    cases hs : a.newStart with
    | none => exact Or.inl (by simp [editEntry, hfind, hs, promptFalsy])
    | some ts =>
      cases ts with
      | empty => exact Or.inl (by simp [editEntry, hfind, hs, promptFalsy])
      | invalid =>
        refine Or.inl ?_
        cases he : a.newEnd with
        | none => simp [editEntry, hfind, hs, he, promptFalsy]
        | some te =>
          cases te <;> simp [editEntry, hfind, hs, he, promptFalsy, DateText.toDate]
      | time s =>
        cases he : a.newEnd with
        | none => exact Or.inl (by simp [editEntry, hfind, hs, he, promptFalsy])
        | some te =>
          cases te with
          | empty => exact Or.inl (by simp [editEntry, hfind, hs, he, promptFalsy])
          | invalid =>
            exact Or.inl (by simp [editEntry, hfind, hs, he, promptFalsy, DateText.toDate])
          | time ed =>
            by_cases hlt : s < ed
            · refine Or.inr ⟨s, ed, strOr (a.newCat.getD "") e.category,
                a.newNote.getD e.note, rfl, rfl, hlt, ?_⟩
              rw [editEntry_accepted hfind hs he hlt]
            · exact Or.inl (by
                simp [editEntry, hfind, hs, he, promptFalsy, DateText.toDate, not_lt.1 hlt])

theorem stopEntry_consistent (app : App) (i : ToggleInput) : (stopEntry app i).Consistent := by
  simp [Entry.Consistent, stopEntry]

theorem onToggleTimer_running {app : App} (i : ToggleInput) (h : app.state.running = true) :
    onToggleTimer app i =
      { app with
        entries := app.entries ++ [stopEntry app i]
        state :=
          { running := false
            startTime := none
            category := i.categorySelect
            note := jsTrim i.noteInput } } := by
  simp [onToggleTimer, h]

theorem onToggleTimer_idle {app : App} (i : ToggleInput) (h : app.state.running = false) :
    onToggleTimer app i =
      { app with
        state :=
          { running := true
            startTime := some i.now
            category := i.categorySelect
            note := jsTrim i.noteInput } } := by
  simp [onToggleTimer, h]

/-- The entries after a sequence of toggles: the old ones, then one new entry
for every stop. -/
theorem toggles_entries (inputs : List ToggleInput) :
    ∀ app : App, ∃ added : List Entry,
      (toggles app inputs).entries = app.entries ++ added ∧
      added.length = (inputs.length + if app.state.running then 1 else 0) / 2 := by
  induction inputs with
  | nil =>
    intro app
    refine ⟨[], by simp [toggles], ?_⟩
    split <;> simp
  | cons i rest ih =>
    intro app
    obtain ⟨added, hadd, hlen⟩ := ih (onToggleTimer app i)
    cases hrun : app.state.running with
    | false =>
      rw [onToggleTimer_idle i hrun] at hadd hlen
      refine ⟨added, ?_, ?_⟩
      · simpa [toggles, onToggleTimer_idle i hrun] using hadd
      · simpa using hlen
    | true =>
      rw [onToggleTimer_running i hrun] at hadd hlen
      refine ⟨stopEntry app i :: added, ?_, ?_⟩
      · simpa [toggles, onToggleTimer_running i hrun] using hadd
      · simp at hlen
        simp [hlen]
        omega

/-! ### C1 -/

/-- C1, as the code has it. The entry appended by a stop has `durationMs`
equal to its end minus its start, for every start time, clock reading and
rounding setting. The entry rewritten by an accepted edit has `durationMs`
equal to the double nearest to its new end minus its new start, which is that
difference itself when the two are at most `2^53` ms apart. When every entry
of the list has `durationMs == end − start`, every entry has it after every
toggle, after every delete, and after every edit whose entered end is at most
`2^53` ms after its entered start. -/
theorem duration_is_end_minus_start (app : App) (i : ToggleInput) (id : String)
    (a : EditInput) (confirmed : Bool) (h : ∀ e ∈ app.entries, e.Consistent) :
    (app.state.running = true →
      (onToggleTimer app i).entries = app.entries ++ [stopEntry app i] ∧
      (stopEntry app i).durationMs = (stopEntry app i).«end» - (stopEntry app i).start) ∧
    (∀ e s ed, app.entries.find? (fun x => decide (x.id = id)) = some e →
      a.newStart = some (.time s) → a.newEnd = some (.time ed) → s < ed →
      ∃ e2 : Entry,
        (editEntry app.entries id a).entries = updateFirst id (fun _ => e2) app.entries ∧
        (editEntry app.entries id a).entries.find? (fun x => decide (x.id = id)) = some e2 ∧
        e2.start = s ∧ e2.«end» = ed ∧
        e2.durationMs = toDouble (e2.«end» - e2.start) ∧
        (ed - s ≤ 2 ^ 53 → e2.durationMs = e2.«end» - e2.start)) ∧
    (∀ e ∈ (onToggleTimer app i).entries, e.Consistent) ∧
    ((∀ s ed, a.newStart = some (.time s) → a.newEnd = some (.time ed) → ed - s ≤ 2 ^ 53) →
      ∀ e ∈ (editEntry app.entries id a).entries, e.Consistent) ∧
    (∀ e ∈ deleteEntry app.entries id confirmed, e.Consistent) := by
  refine ⟨?_, ?_, ?_, ?_, ?_⟩
  · intro hrun
    exact ⟨by rw [onToggleTimer_running i hrun], stopEntry_consistent app i⟩
  · intro e s ed hfind hs he hlt
    refine ⟨rewriteEntry s ed (strOr (a.newCat.getD "") e.category) (a.newNote.getD e.note) e,
      ?_, ?_, rfl, rfl, rfl, ?_⟩
    · rw [editEntry_accepted hfind hs he hlt]
      exact updateFirst_of_find _ hfind
    · rw [editEntry_accepted hfind hs he hlt]
      exact find_updateFirst
        (rewriteEntry s ed (strOr (a.newCat.getD "") e.category) (a.newNote.getD e.note))
        (fun _ => rfl) hfind
    · intro hclose
      exact toDouble_of_le (by omega) hclose
  · intro e he
    cases hrun : app.state.running with
    | false =>
      rw [onToggleTimer_idle i hrun] at he
      exact h e he
    | true =>
      rw [onToggleTimer_running i hrun] at he
      rcases List.mem_append.1 he with h1 | h1
      · exact h e h1
      · rw [List.mem_singleton.1 h1]
        exact stopEntry_consistent app i
  · intro hclose e he
    rcases editEntry_entries app.entries id a with h1 | ⟨s, ed, c, n, hs, hed, hlt, h1⟩
    · rw [h1] at he
      exact h e he
    · rw [h1] at he
      rcases updateFirst_mem he with h2 | ⟨y, _, _, h2⟩
      · exact h e h2
      · rw [h2]
        exact toDouble_of_le (by omega) (hclose s ed hs hed)
  · intro e he
    unfold deleteEntry at he
    split at he
    · exact h e he
    · exact h e (List.mem_of_mem_filter he)

theorem duration_is_end_minus_start_witness :
    (∀ e ∈ sampleApp.entries, e.Consistent) ∧
    (∀ e ∈ (onToggleTimer sampleApp sampleToggle).entries, e.Consistent) ∧
    (∀ e ∈ (editEntry sampleApp.entries "a"
        ⟨some (.time 5), some (.time 9), none, none⟩).entries, e.Consistent) ∧
    (∀ e ∈ deleteEntry sampleApp.entries "a" true, e.Consistent) :=
  have h := duration_is_end_minus_start sampleApp sampleToggle "a"
    ⟨some (.time 5), some (.time 9), none, none⟩ true (by decide)
  ⟨by decide, h.2.2.1,
   h.2.2.2.1 (by intro s ed hs he; simp at hs he; omega),
   h.2.2.2.2⟩

/-- C1 as stated fails for an edit: with the earliest and the latest but one
time value of a `Date` entered as start and end, the edit is accepted and the
entry is stored with `durationMs` 17280000000000000, the double nearest to
the difference 17279999999999999 of its end and its start. -/
theorem far_apart_edit_rounds_duration :
    (editEntry sampleApp.entries "a"
      ⟨some (.time (-8640000000000000)), some (.time 8639999999999999), none, none⟩).alert
      = none ∧
    (editEntry sampleApp.entries "a"
      ⟨some (.time (-8640000000000000)), some (.time 8639999999999999), none, none⟩).entries
      = [{ id := "a", start := -8640000000000000, «end» := 8639999999999999,
           durationMs := 17280000000000000, category := "Unterricht", note := "x" }] ∧
    (17280000000000000 : Int) ≠ 8639999999999999 - (-8640000000000000) ∧
    ¬ ∀ e ∈ (editEntry sampleApp.entries "a"
      ⟨some (.time (-8640000000000000)), some (.time 8639999999999999), none, none⟩).entries,
      e.Consistent := by
  decide

/-! ### C2 -/

/-- C2. A call of `onToggleTimer` made while the timer runs appends exactly
one entry at the end of the list and leaves the earlier entries as they are; a
call made while it is idle leaves the list as it is; and after `n` calls that
begin with an idle timer the list is the old list followed by `n / 2` new
entries. -/
theorem toggle_grows_by_one_per_stop (app : App) (inputs : List ToggleInput)
    (hidle : app.state.running = false) :
    (∀ (a : App) (i : ToggleInput), a.state.running = true →
      (onToggleTimer a i).entries = a.entries ++ [stopEntry a i] ∧
      (onToggleTimer a i).state.running = false) ∧
    (∀ (a : App) (i : ToggleInput), a.state.running = false →
      (onToggleTimer a i).entries = a.entries ∧
      (onToggleTimer a i).state.running = true) ∧
    (∃ added : List Entry,
      (toggles app inputs).entries = app.entries ++ added ∧
      added.length = inputs.length / 2) := by
  refine ⟨?_, ?_, ?_⟩
  · intro a i h
    rw [onToggleTimer_running i h]
    exact ⟨rfl, rfl⟩
  · intro a i h
    rw [onToggleTimer_idle i h]
    exact ⟨rfl, rfl⟩
  · obtain ⟨added, h1, h2⟩ := toggles_entries inputs app
    exact ⟨added, h1, by simpa [hidle] using h2⟩

theorem toggle_grows_by_one_per_stop_witness :
    sampleIdle.state.running = false ∧
    ∃ added : List Entry,
      (toggles sampleIdle [sampleToggle, sampleToggle, sampleToggle]).entries
        = sampleIdle.entries ++ added ∧
      added.length = [sampleToggle, sampleToggle, sampleToggle].length / 2 :=
  ⟨by decide,
   (toggle_grows_by_one_per_stop sampleIdle [sampleToggle, sampleToggle, sampleToggle]
      (by decide)).2.2⟩

/-! ### C3 -/

/-- The value of `roundTo5Minutes d` is `300000 * k` for the integer `k` with
`300000 * k - 150000 ≤ d < 300000 * k + 150000`. -/
theorem roundTo5Minutes_bounds (d : Int) :
    ∃ k : Int, roundTo5Minutes d = 300000 * k ∧
      300000 * k ≤ d + 150000 ∧ d + 150000 < 300000 * k + 300000 := by
  refine ⟨⌊(d : ℚ) / 300000 + 1 / 2⌋, ?_, ?_, ?_⟩
  · simp only [roundTo5Minutes, mathRound]
    norm_num
    ring
  · have h := Int.floor_le ((d : ℚ) / 300000 + 1 / 2)
    have h2 : (300000 : ℚ) * (⌊(d : ℚ) / 300000 + 1 / 2⌋ : ℚ) ≤ (d : ℚ) + 150000 := by
      linarith
    exact_mod_cast h2
  · have h := Int.lt_floor_add_one ((d : ℚ) / 300000 + 1 / 2)
    have h2 : (d : ℚ) + 150000 < (300000 : ℚ) * (⌊(d : ℚ) / 300000 + 1 / 2⌋ : ℚ) + 300000 := by
      linarith
    exact_mod_cast h2

/-- The rounding in integer arithmetic. -/
theorem roundTo5Minutes_eq (d : Int) :
    roundTo5Minutes d = (d + 150000) / 300000 * 300000 := by
  obtain ⟨k, hk, h1, h2⟩ := roundTo5Minutes_bounds d
  omega

/-- C3. With `rounding5` on, the `durationMs` that a stop records for the
elapsed time `d ≥ 0` is `roundTo5Minutes d`; this is a multiple of 300000, no
multiple of 300000 is nearer to `d`, and when `d` is halfway between two
multiples (`d % 300000 = 150000`) it is the larger of the two, `d + 150000`.
Seven minutes, `d = 420000`, are recorded as 300000. -/
theorem rounding_is_nearest_multiple (d : Int) (hd : 0 ≤ d) :
    (∀ (app : App) (i : ToggleInput), app.state.running = true →
      app.settings.rounding5 = true → i.now - dateOfStartTime app.state.startTime = d →
      ∃ e : Entry, (onToggleTimer app i).entries = app.entries ++ [e] ∧
        e.durationMs = roundTo5Minutes d) ∧
    (∃ k : Int, roundTo5Minutes d = 300000 * k) ∧
    (∀ m : Int, |d - roundTo5Minutes d| ≤ |d - 300000 * m|) ∧
    (d % 300000 = 150000 → roundTo5Minutes d = d + 150000) ∧
    roundTo5Minutes 420000 = 300000 := by
  have _ := hd
  refine ⟨?_, ?_, ?_, ?_, ?_⟩
  · intro app i hrun hround hel
    refine ⟨stopEntry app i, by rw [onToggleTimer_running i hrun], ?_⟩
    simp [stopEntry, hround, hel]
  · obtain ⟨k, hk, _, _⟩ := roundTo5Minutes_bounds d
    exact ⟨k, hk⟩
  · intro m
    obtain ⟨k, hk, h1, h2⟩ := roundTo5Minutes_bounds d
    rw [hk]
    have h3 := le_abs_self (d - 300000 * m)
    have h4 := neg_le_abs (d - 300000 * m)
    rw [abs_le]
    rcases lt_trichotomy m k with h | h | h
    · constructor <;> omega
    · subst h
      constructor <;> omega
    · constructor <;> omega
  · intro h
    rw [roundTo5Minutes_eq]
    omega
  · rw [roundTo5Minutes_eq]
    decide

theorem rounding_is_nearest_multiple_witness :
    (0 : Int) ≤ 420000 ∧
    (∃ e : Entry, (onToggleTimer sampleApp sampleToggle).entries = sampleApp.entries ++ [e] ∧
      e.durationMs = roundTo5Minutes 420000) ∧
    (∀ m : Int, |420000 - roundTo5Minutes 420000| ≤ |420000 - 300000 * m|) :=
  ⟨by decide,
   (rounding_is_nearest_multiple 420000 (by decide)).1 sampleApp sampleToggle
      (by decide) (by decide) (by decide),
   (rounding_is_nearest_multiple 420000 (by decide)).2.2.1⟩

/-! ### C4 -/

theorem lookup_mem {o : ByCat} {k : String} {v : JsVal} (h : o.lookup k = some v) :
    (k, v) ∈ o ∨ ∃ k2, (k2, v) ∈ o := by
  induction o with
  | nil => simp at h
  | cons p rest ih =>
    obtain ⟨k1, v1⟩ := p
    by_cases hk : k = k1
    · subst hk
      simp [List.lookup] at h
      subst h
      exact Or.inl (List.mem_cons_self _ _)
    · have hb : (k == k1) = false := by simpa using hk
      simp [List.lookup, hb] at h
      rcases ih h with h1 | ⟨k2, h1⟩
      · exact Or.inl (List.mem_cons_of_mem _ h1)
      · exact Or.inr ⟨k2, List.mem_cons_of_mem _ h1⟩

theorem lookup_putOwn (k c : String) (v : JsVal) (o : ByCat) :
    (putOwn k v o).lookup c = if c = k then some v else o.lookup c := by
  induction o with
  | nil =>
    by_cases hc : c = k
    · simp [putOwn, List.lookup, hc]
    · have hb : (c == k) = false := by simpa using hc
      simp [putOwn, List.lookup, hc, hb]
  | cons p rest ih =>
    obtain ⟨k1, v1⟩ := p
    by_cases h1 : k1 = k
    · subst h1
      by_cases hc : c = k1
      · simp [putOwn, List.lookup, hc]
      · have hb : (c == k1) = false := by simpa using hc
        simp [putOwn, List.lookup, hc, hb]
    · by_cases hc : c = k1
      · subst hc
        simp [putOwn, List.lookup, h1]
      · have hb : (c == k1) = false := by simpa using hc
        simp [putOwn, List.lookup, h1, hb, ih]

theorem valueSum_putOwn (k : String) (v : JsVal) (o : ByCat) :
    valueSum (putOwn k v o) = valueSum o - catTotal o k + numVal v := by
  induction o with
  | nil => simp [putOwn, valueSum, catTotal]
  | cons p rest ih =>
    obtain ⟨k1, v1⟩ := p
    by_cases h1 : k1 = k
    · subst h1
      simp [putOwn, valueSum, catTotal, List.lookup]
      ring
    · have hb : (k == k1) = false := by
        simpa using fun h => h1 h.symm
      simp only [valueSum, catTotal] at ih
      simp [putOwn, valueSum, catTotal, List.lookup, h1, hb, ih]
      ring

theorem numeric_putOwn {o : ByCat} (k : String) (n : Int) (hn : 0 ≤ n) (h : Numeric o) :
    Numeric (putOwn k (.num n) o) := by
  induction o with
  | nil =>
    intro p hp
    simp [putOwn] at hp
    exact ⟨n, by rw [hp], hn⟩
  | cons q rest ih =>
    obtain ⟨k1, v1⟩ := q
    have hrest : Numeric rest := fun p hp => h p (List.mem_cons_of_mem _ hp)
    intro p hp
    unfold putOwn at hp
    split at hp
    · rcases List.mem_cons.1 hp with h2 | h2
      · exact ⟨n, by rw [h2], hn⟩
      · exact hrest p h2
    · rcases List.mem_cons.1 hp with h2 | h2
      · exact h p (h2 ▸ List.mem_cons_self _ _)
      · exact ih hrest p h2

/-- In an object of numbers that are not negative, the number of a category
lies between `0` and the sum of all numbers. -/
theorem catTotal_bounds {o : ByCat} (h : Numeric o) (k : String) :
    0 ≤ catTotal o k ∧ catTotal o k ≤ valueSum o ∧ 0 ≤ valueSum o := by
  induction o with
  | nil => simp [catTotal, valueSum]
  | cons p rest ih =>
    obtain ⟨k1, v1⟩ := p
    obtain ⟨n, hv, hn⟩ := h (k1, v1) (List.mem_cons_self _ _)
    simp only at hv
    subst hv
    have hrest : Numeric rest := fun q hq => h q (List.mem_cons_of_mem _ hq)
    obtain ⟨i1, i2, i3⟩ := ih hrest
    have hsum : valueSum ((k1, JsVal.num n) :: rest) = n + valueSum rest := by
      simp [valueSum, numVal]
    by_cases hk : k = k1
    · subst hk
      have hcat : catTotal ((k, JsVal.num n) :: rest) k = n := by
        simp [catTotal, List.lookup, numVal]
      rw [hcat, hsum]
      omega
    · have hb : (k == k1) = false := by simpa using hk
      have hcat : catTotal ((k1, JsVal.num n) :: rest) k = catTotal rest k := by
        simp [catTotal, List.lookup, hb]
      rw [hcat, hsum]
      omega

/-- The step of the `forEach` on an object of numbers and a category that is
not a property name of `Object.prototype`, while the sums stay at most
`2^53`: the own property of the category is set to its old number, or `0`,
plus the duration. -/
theorem byCatStep_plain {o : ByCat} (e : Entry) (h : Numeric o)
    (hc : e.category ∉ objectPrototypeProps) (hd : 0 ≤ e.durationMs)
    (hb : valueSum o + e.durationMs ≤ 2 ^ 53) :
    byCatStep o e = putOwn e.category (.num (catTotal o e.category + e.durationMs)) o := by
  have hp : e.category ≠ "__proto__" := by
    intro h1
    apply hc
    rw [h1]
    decide
  obtain ⟨b1, b2, _⟩ := catTotal_bounds h e.category
  have hexact : toDouble (catTotal o e.category + e.durationMs)
      = catTotal o e.category + e.durationMs :=
    toDouble_of_le (by omega) (by omega)
  rw [← hexact]
  unfold byCatStep setProp getProp
  rw [if_neg hp]
  cases hl : o.lookup e.category with
  | none => simp [hc, jsOr, JsVal.truthy, jsAdd, catTotal, hl]
  | some v =>
    have hv : ∃ n : Int, v = JsVal.num n := by
      rcases lookup_mem hl with h1 | ⟨k2, h1⟩
      · obtain ⟨n, h2, _⟩ := h _ h1
        exact ⟨n, h2⟩
      · obtain ⟨n, h2, _⟩ := h _ h1
        exact ⟨n, h2⟩
    obtain ⟨n, rfl⟩ := hv
    by_cases hn : n = 0
    · simp [jsOr, JsVal.truthy, jsAdd, numVal, hn, catTotal, hl]
    · simp [jsOr, JsVal.truthy, jsAdd, numVal, hn, catTotal, hl]

theorem foldl_jsAdd_numeric (o : ByCat) (h : Numeric o) :
    ∀ a : Int, 0 ≤ a → a + valueSum o ≤ 2 ^ 53 →
      (o.map Prod.snd).foldl jsAdd (.num a) = .num (a + valueSum o) := by
  induction o with
  | nil => intro a _ _; simp [valueSum]
  | cons p rest ih =>
    intro a ha hb
    obtain ⟨n, hn, hn0⟩ := h p (List.mem_cons_self _ _)
    have hrest : Numeric rest := fun q hq => h q (List.mem_cons_of_mem _ hq)
    obtain ⟨_, _, hr0⟩ := catTotal_bounds hrest ""
    have hsum : valueSum (p :: rest) = n + valueSum rest := by
      simp [valueSum, hn, numVal]
    rw [hsum] at hb ⊢
    have hexact : toDouble (a + n) = a + n := toDouble_of_le (by omega) (by omega)
    simp only [List.map_cons, List.foldl_cons, hn, jsAdd, hexact]
    rw [ih hrest (a + n) (by omega) (by omega)]
    congr 1
    ring

theorem sumDurations_nonneg (l : List Entry) (h : ∀ e ∈ l, 0 ≤ e.durationMs) :
    0 ≤ sumDurations l := by
  induction l with
  | nil => simp [sumDurations]
  | cons e rest ih =>
    have h1 := h e (List.mem_cons_self _ _)
    have h2 := ih (fun x hx => h x (List.mem_cons_of_mem _ hx))
    simp only [sumDurations, List.map_cons, List.sum_cons] at h2 ⊢
    omega

theorem foldl_byCatStep_plain (l : List Entry) :
    ∀ o : ByCat, Numeric o → (∀ e ∈ l, e.category ∉ objectPrototypeProps) →
      (∀ e ∈ l, 0 ≤ e.durationMs) → valueSum o + sumDurations l ≤ 2 ^ 53 →
      Numeric (l.foldl byCatStep o) ∧
      valueSum (l.foldl byCatStep o) = valueSum o + sumDurations l ∧
      (∀ c, catTotal (l.foldl byCatStep o) c
        = catTotal o c + sumDurations (l.filter (fun e => decide (e.category = c)))) ∧
      (∀ c, ((∃ n, o.lookup c = some (.num n)) ∨ ∃ e ∈ l, e.category = c) →
        ∃ n, (l.foldl byCatStep o).lookup c = some (.num n)) := by
  induction l with
  | nil =>
    intro o ho _ _ _
    refine ⟨ho, by simp [sumDurations], by simp [sumDurations], ?_⟩
    intro c hc
    rcases hc with hc | ⟨e, he, _⟩
    · exact hc
    · simp at he
  | cons e rest ih =>
    intro o ho hl hnn hbound
    have hc : e.category ∉ objectPrototypeProps := hl e (List.mem_cons_self _ _)
    have hd : 0 ≤ e.durationMs := hnn e (List.mem_cons_self _ _)
    have hrest0 : 0 ≤ sumDurations rest :=
      sumDurations_nonneg rest (fun x hx => hnn x (List.mem_cons_of_mem _ hx))
    have hcons : sumDurations (e :: rest) = e.durationMs + sumDurations rest := by
      simp [sumDurations]
    rw [hcons] at hbound
    obtain ⟨b1, _, _⟩ := catTotal_bounds ho e.category
    have hstep := byCatStep_plain e ho hc hd (by omega)
    have hnum : Numeric (byCatStep o e) := by
      rw [hstep]
      exact numeric_putOwn _ _ (by omega) ho
    have hval : valueSum (byCatStep o e) = valueSum o + e.durationMs := by
      rw [hstep, valueSum_putOwn]
      simp only [numVal]
      ring
    obtain ⟨h1, h2, h3, h4⟩ :=
      ih (byCatStep o e) hnum (fun x hx => hl x (List.mem_cons_of_mem _ hx))
        (fun x hx => hnn x (List.mem_cons_of_mem _ hx)) (by rw [hval]; omega)
    have hlook : ∀ c, (byCatStep o e).lookup c
        = if c = e.category then some (.num (catTotal o e.category + e.durationMs))
          else o.lookup c := by
      intro c
      rw [hstep, lookup_putOwn]
    have hcat : ∀ c, catTotal (byCatStep o e) c
        = catTotal o c + if e.category = c then e.durationMs else 0 := by
      intro c
      by_cases hce : c = e.category
      · subst hce
        simp [catTotal, hlook, numVal]
      · have hce2 : ¬ e.category = c := fun h => hce h.symm
        simp [catTotal, hlook, hce, hce2]
    refine ⟨h1, ?_, ?_, ?_⟩
    · rw [List.foldl_cons, h2, hval, hcons]
      ring
    · intro c
      rw [List.foldl_cons, h3 c, hcat c]
      by_cases hce : e.category = c
      · simp [hce, sumDurations, List.filter_cons]
        ring
      · simp [hce, sumDurations, List.filter_cons]
    · intro c hex
      rw [List.foldl_cons]
      apply h4 c
      by_cases hce : c = e.category
      · exact Or.inl ⟨_, by rw [hlook c, if_pos hce]⟩
      · rcases hex with ⟨n, hn⟩ | ⟨x, hx, hxc⟩
        · exact Or.inl ⟨n, by rw [hlook c, if_neg hce, hn]⟩
        · rcases List.mem_cons.1 hx with hxe | hxr
          · exact absurd (hxe ▸ hxc.symm) hce
          · exact Or.inr ⟨x, hxr, hxc⟩

/-- The totals of the summary are exact on a list none of whose categories
is a property name of `Object.prototype`, whose durations are not negative
and sum to at most `2^53`: the grand total is the sum of `durationMs` over
the list, and the total of each category that occurs is the sum of
`durationMs` over the entries of that category. -/
theorem summary_exact_of_plain_categories (filtered : List Entry)
    (h : ∀ e ∈ filtered, e.category ∉ objectPrototypeProps)
    (hnn : ∀ e ∈ filtered, 0 ≤ e.durationMs) (hsum : sumDurations filtered ≤ 2 ^ 53) :
    summaryTotal (buildByCat filtered) = .num (sumDurations filtered) ∧
    ∀ c, (∃ e ∈ filtered, e.category = c) →
      getProp (buildByCat filtered) c
        = .num (sumDurations (filtered.filter (fun e => decide (e.category = c)))) := by
  have hnil : Numeric ([] : ByCat) := fun p hp => by simp at hp
  have hv0 : valueSum ([] : ByCat) = 0 := by simp [valueSum]
  obtain ⟨h1, h2, h3, h4⟩ :=
    foldl_byCatStep_plain filtered [] hnil h hnn (by rw [hv0]; omega)
  rw [hv0] at h2
  constructor
  · unfold summaryTotal buildByCat
    rw [foldl_jsAdd_numeric _ h1 0 (le_refl 0) (by rw [h2]; omega), h2]
    simp
  · intro c hc
    obtain ⟨n, hn⟩ := h4 c (Or.inr hc)
    have h5 := h3 c
    simp only [catTotal] at h5
    unfold buildByCat getProp
    rw [hn] at h5 ⊢
    simp [numVal] at h5
    simp [h5]

/-- C4 fails on the code for a category named like a property that every
object inherits. With one filtered entry of 60000 ms in the category
'constructor', `byCat['constructor']` reads the inherited function, so the
total stored for the category and the grand total are strings, not 60000. -/
theorem summary_of_inherited_category_is_not_a_number :
    renderFiltered (fun t => t + 86400000) ⟨.empty, .empty, ""⟩ [constructorEntry]
      = [constructorEntry] ∧
    sumDurations [constructorEntry] = 60000 ∧
    getProp [] constructorEntry.category = JsVal.object ∧
    buildByCat [constructorEntry] = [("constructor", JsVal.str)] ∧
    summaryTotal (buildByCat [constructorEntry]) = JsVal.str ∧
    summaryTotal (buildByCat [constructorEntry]) ≠ .num (sumDurations [constructorEntry]) := by
  decide

/-! ### C5 -/

theorem applyCategory_filter (c : String) (p : Entry → Bool) (l : List Entry) :
    applyCategory c (l.filter p) = (applyCategory c l).filter p := by
  unfold applyCategory
  split
  · exact List.filter_comm _ _ _
  · rfl

/-- C5. The date-range filter followed by the category filter, the order of
`render` and `exportCSV`, gives the same list in the same order as the
category filter followed by the date-range filter, for every list, every
content of the two date fields and every category. -/
theorem date_and_category_filters_commute (nextDay : Int → Int) (f : FilterInput)
    (entries : List Entry) :
    filterEntries nextDay f entries
      = applyCategory f.filterCategory (applyDateRange nextDay f.fromDate f.toDate entries) ∧
    applyCategory f.filterCategory (applyDateRange nextDay f.fromDate f.toDate entries)
      = applyDateRange nextDay f.fromDate f.toDate (applyCategory f.filterCategory entries) := by
  refine ⟨rfl, ?_⟩
  unfold applyDateRange
  cases parseDateInput f.fromDate <;> cases parseDateInput f.toDate <;>
    simp only [applyCategory_filter]

/-! ### C6 -/

theorem find_isSome_of_mem {entries : List Entry} {id : String}
    (h : ∃ e ∈ entries, e.id = id) :
    ∃ e, entries.find? (fun x => decide (x.id = id)) = some e := by
  obtain ⟨e, he, hid⟩ := h
  cases hf : entries.find? (fun x => decide (x.id = id)) with
  | some e2 => exact ⟨e2, rfl⟩
  | none =>
    have := List.find?_eq_none.1 hf e he
    simp [hid] at this

/-- C6, as the code has it. An edit of an existing entry in which the entered
end is not strictly after the entered start, or in which the start or the end
does not parse, leaves the whole list as it is. It shows the alert
'Ungültige Zeiten.' when both timestamp prompts were answered with a
non-empty text; when the start or the end prompt was cancelled or left empty
the call ends without an alert. -/
theorem rejected_edit_leaves_entries (entries : List Entry) (id : String) (a : EditInput)
    (hid : ∃ e ∈ entries, e.id = id)
    (hbad : ∀ s ed, a.newStart.bind DateText.toDate = some s →
      a.newEnd.bind DateText.toDate = some ed → ed ≤ s) :
    (editEntry entries id a).entries = entries ∧
    (promptFalsy a.newStart = false → promptFalsy a.newEnd = false →
      (editEntry entries id a).alert = some Alert.invalidTimes) ∧
    (promptFalsy a.newStart = true ∨ promptFalsy a.newEnd = true →
      (editEntry entries id a).alert = none) := by
  obtain ⟨e, hfind⟩ := find_isSome_of_mem hid
  cases h1 : promptFalsy a.newStart with
  | true => simp [editEntry, hfind, h1]
  | false =>
    cases h2 : promptFalsy a.newEnd with
    | true => simp [editEntry, hfind, h1, h2]
    | false =>
      cases hs : a.newStart.bind DateText.toDate with
      | none => simp [editEntry, hfind, h1, h2, hs]
      | some s =>
        cases he : a.newEnd.bind DateText.toDate with
        | none => simp [editEntry, hfind, h1, h2, hs, he]
        | some ed => simp [editEntry, hfind, h1, h2, hs, he, hbad s ed hs he]

theorem rejected_edit_leaves_entries_witness :
    (∃ e ∈ sampleApp.entries, e.id = "a") ∧
    (editEntry sampleApp.entries "a" ⟨some (.time 9), some (.time 9), none, none⟩).entries
      = sampleApp.entries ∧
    (editEntry sampleApp.entries "a" ⟨some (.time 9), some (.time 9), none, none⟩).alert
      = some Alert.invalidTimes :=
  have h := rejected_edit_leaves_entries sampleApp.entries "a"
    ⟨some (.time 9), some (.time 9), none, none⟩ (by decide)
    (by intro s ed hs he; simp [DateText.toDate] at hs he; omega)
  ⟨by decide, h.1, h.2.1 (by decide) (by decide)⟩

/-- C6 as stated fails: the start prompt answered with the empty text, which
does not parse as a timestamp, ends the edit of an existing entry without any
alert. -/
theorem empty_start_edit_shows_no_alert :
    (∃ e ∈ sampleApp.entries, e.id = "a") ∧
    (some DateText.empty).bind DateText.toDate = none ∧
    (editEntry sampleApp.entries "a" ⟨some .empty, some (.time 9), none, none⟩).alert = none ∧
    (editEntry sampleApp.entries "a" ⟨some .empty, some (.time 9), none, none⟩).alert
      ≠ some Alert.invalidTimes := by
  decide

/-! ### C7 -/

/-- C7. When the restore document does not parse, is not an object, has no
property `entries`, or has one that is not an array, `onRestore` shows the
error alert and leaves `entries`, `categories`, `state` and `settings` as they
are. -/
theorem restore_without_entries_is_rejected (app : App) (doc : RestoreDoc)
    (h : ∀ o es, doc = RestoreDoc.object o → o.entries ≠ EntriesField.array es) :
    onRestore app doc = (app, Alert.restoreError) := by
  cases doc with
  | unparseable => rfl
  | null => rfl
  | primitive => rfl
  | array => rfl
  | object o =>
    cases ho : o.entries with
    | missing => simp [onRestore, ho]
    | notArray => simp [onRestore, ho]
    | array es => exact absurd ho (h o es rfl)

theorem restore_without_entries_is_rejected_witness :
    (∀ o es, docWithoutEntries = RestoreDoc.object o → o.entries ≠ EntriesField.array es) ∧
    onRestore sampleApp docWithoutEntries = (sampleApp, Alert.restoreError) :=
  ⟨by intro o es h; cases h; simp,
   restore_without_entries_is_rejected sampleApp docWithoutEntries
     (by intro o es h; cases h; simp)⟩

/-! ### C8 -/

theorem step_valid (app : App) (op : TimerOp) (hv : app.state.Valid)
    (hdoc : ∀ o st, op = TimerOp.restore (.object o) → o.state = some st → st.Valid) :
    (step app op).state.Valid := by
  cases op with
  | toggle i =>
    cases hrun : app.state.running with
    | false => simp [step, onToggleTimer_idle i hrun, TimerState.Valid]
    | true => simp [step, onToggleTimer_running i hrun, TimerState.Valid]
  | categoryChange v => exact hv
  | noteInput v => exact hv
  | restore doc =>
    cases doc with
    | unparseable => exact hv
    | null => exact hv
    | primitive => exact hv
    | array => exact hv
    | object o =>
      cases he : o.entries with
      | missing => simpa [step, onRestore, he] using hv
      | notArray => simpa [step, onRestore, he] using hv
      | array es =>
        cases hst : o.state with
        | none => simpa [step, onRestore, he, hst] using hv
        | some st => simpa [step, onRestore, he, hst] using hdoc o st rfl hst

theorem run_valid (ops : List TimerOp) :
    ∀ app : App, app.state.Valid →
      (∀ o st, TimerOp.restore (.object o) ∈ ops → o.state = some st → st.Valid) →
      (run app ops).state.Valid := by
  induction ops with
  | nil => intro app hv _; exact hv
  | cons op rest ih =>
    intro app hv hdocs
    have h1 : (step app op).state.Valid :=
      step_valid app op hv (fun o st hop => hdocs o st (hop ▸ List.mem_cons_self _ _))
    exact ih (step app op) h1 (fun o st hmem => hdocs o st (List.mem_cons_of_mem _ hmem))

/-- C8, as the code has it. From the default state, every sequence of starts,
stops, category changes, note inputs and restores leaves `state` with
`running == true ⇒ startTime != null`, provided each restored document that
carries a `state` carries one that satisfies this itself: `onRestore` takes
the `state` of an accepted document as it is. -/
theorem timer_invariant_kept (app : App) (ops : List TimerOp)
    (h0 : app.state = defaultState app.categories)
    (hdocs : ∀ o st, TimerOp.restore (.object o) ∈ ops → o.state = some st → st.Valid) :
    (run app ops).state.running = true → (run app ops).state.startTime ≠ none := by
  have hv : app.state.Valid := by
    rw [h0]
    simp [TimerState.Valid, defaultState]
  exact run_valid ops app hv hdocs

theorem timer_invariant_kept_witness :
    defaultApp.state = defaultState defaultApp.categories ∧
    ((run defaultApp [.toggle sampleToggle, .categoryChange "A", .restore docRunning,
        .noteInput "n"]).state.running = true →
      (run defaultApp [.toggle sampleToggle, .categoryChange "A", .restore docRunning,
        .noteInput "n"]).state.startTime ≠ none) :=
  ⟨rfl,
   timer_invariant_kept defaultApp
    [.toggle sampleToggle, .categoryChange "A", .restore docRunning, .noteInput "n"] rfl
    (by
      intro o st hmem hst
      simp [docRunning] at hmem
      subst hmem
      simp at hst
      subst hst
      simp [TimerState.Valid])⟩

/-- C8 as stated fails: the restore of an accepted backup document whose state
is running without a start time leaves the timer running with
`startTime == null`. -/
theorem restore_breaks_timer_invariant :
    (onRestore defaultApp docRunningWithoutStart).2 = Alert.restored ∧
    (run defaultApp [.restore docRunningWithoutStart]).state.running = true ∧
    (run defaultApp [.restore docRunningWithoutStart]).state.startTime = none := by
  decide

/-! ### C9 -/

/-- C9, as the code has it. A stop leaves the timer idle, `running = false`
and `startTime = null`, with `category` the content of the category input and
`note` the trimmed content of the note input. These are the category and the
note of the entry the stop appended whenever the running state held that same
category (or none) and that same note (or none). -/
theorem stop_resets_timer_to_inputs (app : App) (i : ToggleInput)
    (hrun : app.state.running = true) :
    (onToggleTimer app i).entries = app.entries ++ [stopEntry app i] ∧
    (onToggleTimer app i).state.running = false ∧
    (onToggleTimer app i).state.startTime = none ∧
    (onToggleTimer app i).state.category = i.categorySelect ∧
    (onToggleTimer app i).state.note = jsTrim i.noteInput ∧
    (app.state.category = "" ∨ app.state.category = i.categorySelect →
      (onToggleTimer app i).state.category = (stopEntry app i).category) ∧
    (app.state.note = "" ∨ app.state.note = jsTrim i.noteInput →
      (onToggleTimer app i).state.note = (stopEntry app i).note) := by
  rw [onToggleTimer_running i hrun]
  refine ⟨rfl, rfl, rfl, rfl, rfl, ?_, ?_⟩
  · intro h
    rcases h with h | h
    · simp [stopEntry, strOr, h]
    · simp only [stopEntry, strOr, h]
      split <;> simp_all
  · intro h
    rcases h with h | h
    · simp [stopEntry, strOr, h]
    · simp only [stopEntry, strOr, h]
      split <;> simp_all

theorem stop_resets_timer_to_inputs_witness :
    sampleApp.state.running = true ∧
    (onToggleTimer sampleApp sampleToggle).state.running = false ∧
    (onToggleTimer sampleApp sampleToggle).state.startTime = none ∧
    (onToggleTimer sampleApp sampleToggle).state.category
      = (stopEntry sampleApp sampleToggle).category :=
  have h := stop_resets_timer_to_inputs sampleApp sampleToggle (by decide)
  ⟨by decide, h.2.1, h.2.2.1, h.2.2.2.2.2.1 (by decide)⟩

/-- C9 as stated fails: with the running state holding 'Korrekturen' and the
category input showing 'Unterricht', the appended entry has the category
'Korrekturen' and the idle state the category 'Unterricht'. -/
theorem stop_category_differs_from_entry :
    sampleApp.state.running = true ∧
    (onToggleTimer sampleApp sampleToggleOther).entries
      = sampleApp.entries ++ [stopEntry sampleApp sampleToggleOther] ∧
    (stopEntry sampleApp sampleToggleOther).category = "Korrekturen" ∧
    (onToggleTimer sampleApp sampleToggleOther).state.category = "Unterricht" ∧
    (onToggleTimer sampleApp sampleToggleOther).state.category
      ≠ (stopEntry sampleApp sampleToggleOther).category :=
  ⟨by decide, by rw [onToggleTimer_running _ (by decide)], by decide, by decide, by decide⟩

/-! ### C10 -/

theorem jsTrim_of_isBlank {s : String} (h : isBlank s = true) : jsTrim s = "" := by
  have h1 : s.data.dropWhile isJsWhiteSpace = [] := by
    rw [List.dropWhile_eq_nil_iff]
    simpa [isBlank] using h
  simp [jsTrim, h1]

/-- C10, as the code has it. An accepted edit rewrites the entry with
`durationMs` the double nearest to `end − start`, which is `end − start`
itself when the two are at most `2^53` ms apart. When the category entered is
blank the entry keeps the category it had, stored without surrounding white
space if the prompt was cancelled or left empty; in particular a category
without surrounding white space is kept as it is. A blank note entered makes
the note empty; a cancelled note prompt keeps the note the entry had,
trimmed. -/
theorem accepted_edit_recomputes_duration (entries : List Entry) (id : String)
    (a : EditInput) (e : Entry) (s ed : Int)
    (hfind : entries.find? (fun x => decide (x.id = id)) = some e)
    (hs : a.newStart = some (.time s)) (he : a.newEnd = some (.time ed)) (hlt : s < ed) :
    ∃ e2 : Entry,
      (editEntry entries id a).entries = updateFirst id (fun _ => e2) entries ∧
      (editEntry entries id a).entries.find? (fun x => decide (x.id = id)) = some e2 ∧
      (editEntry entries id a).alert = none ∧
      e2.start = s ∧ e2.«end» = ed ∧
      e2.durationMs = toDouble (ed - s) ∧
      (ed - s ≤ 2 ^ 53 → e2.durationMs = ed - s) ∧
      (isBlank (a.newCat.getD "") = true →
        e2.category = if a.newCat.getD "" = "" then strOr (jsTrim e.category) e.category
          else e.category) ∧
      (isBlank (a.newCat.getD "") = true → jsTrim e.category = e.category →
        e2.category = e.category) ∧
      (∀ n, a.newNote = some n → isBlank n = true → e2.note = "") ∧
      (a.newNote = none → e2.note = jsTrim e.note) := by
  refine ⟨rewriteEntry s ed (strOr (a.newCat.getD "") e.category) (a.newNote.getD e.note) e,
    ?_, ?_, ?_, rfl, rfl, rfl, ?_, ?_, ?_, ?_, ?_⟩
  · rw [editEntry_accepted hfind hs he hlt]
    exact updateFirst_of_find _ hfind
  · rw [editEntry_accepted hfind hs he hlt]
    exact find_updateFirst
      (rewriteEntry s ed (strOr (a.newCat.getD "") e.category) (a.newNote.getD e.note))
      (fun _ => rfl) hfind
  · rw [editEntry_accepted hfind hs he hlt]
  · intro hclose
    exact toDouble_of_le (by omega) hclose
  · intro hb
    by_cases h0 : a.newCat.getD "" = ""
    · simp [rewriteEntry, h0, strOr]
    · have h1 := jsTrim_of_isBlank hb
      simp [rewriteEntry, h0, strOr, h1]
  · intro hb htrim
    by_cases h0 : a.newCat.getD "" = ""
    · simp [rewriteEntry, h0, strOr, htrim]
    · have h1 := jsTrim_of_isBlank hb
      simp [rewriteEntry, h0, strOr, h1]
  · intro n hn hb
    simp [rewriteEntry, hn, jsTrim_of_isBlank hb]
  · intro hn
    simp [rewriteEntry, hn]

theorem accepted_edit_recomputes_duration_witness :
    sampleApp.entries.find? (fun x => decide (x.id = "a")) = sampleApp.entries.head? ∧
    ∃ e2 : Entry,
      (editEntry sampleApp.entries "a"
        ⟨some (.time 5), some (.time 9), some " ", none⟩).entries
        = updateFirst "a" (fun _ => e2) sampleApp.entries ∧
      e2.durationMs = 9 - 5 ∧ e2.category = "Unterricht" :=
  ⟨by decide,
   (accepted_edit_recomputes_duration sampleApp.entries "a"
      ⟨some (.time 5), some (.time 9), some " ", none⟩
      ⟨"a", 1000, 61000, 60000, "Unterricht", "x"⟩ 5 9 (by decide) rfl rfl (by decide)).elim
    (fun e2 h => ⟨e2, h.1, h.2.2.2.2.2.2.1 (by decide),
      h.2.2.2.2.2.2.2.2.1 (by decide) (by decide)⟩)⟩

/-- C10 as stated fails for the note: an accepted edit in which the note
prompt is answered with the empty text leaves the entry, whose note was 'x',
with an empty note. -/
theorem blank_note_edit_clears_note :
    sampleApp.entries.map Entry.note = ["x"] ∧
    (editEntry sampleApp.entries "a" ⟨some (.time 5), some (.time 9), none, some ""⟩).alert
      = none ∧
    (editEntry sampleApp.entries "a" ⟨some (.time 5), some (.time 9), none, some ""⟩).entries
      = [{ id := "a", start := 5, «end» := 9, durationMs := 4, category := "Unterricht",
           note := "" }] := by
  decide

end Arbeitszeit
